import Mathlib

/-!
Verification of the sandboxed script-execution service of this repository:
the `ScriptEnvironment` class in `src/multimodal-transform.js` (the second
half of that file, lines 159-525), comprising the `BLACKLIST` catalog,
`checkBlacklist`, `createContext`, `monitorMemoryUsage`, `executeScript`,
`sanitizeOutput` and `getScriptHistory`.

The embedding is shallow:
* JavaScript strings are Lean `String`s (the blacklist regex scan is
  modelled character by character over `String.data`);
* the script body itself is not interpreted; a script is represented by
  its observable behaviour inside the sandbox (its source text, the
  sequence of `console.log` / `console.error` calls it attempts, and how
  its synchronous run ends: a final value, a thrown error, or the vm
  timeout firing);
* the mutable fields `this.logs` / `this.errors` / `this.callCount` are
  threaded explicitly; `process.memoryUsage().heapUsed` (read by
  `monitorMemoryUsage`) and `performance.now()` are host inputs and enter
  as explicit parameters;
* file-system writes (`fs.writeFile`) are modelled as always succeeding
  and are collected into the function's result; the results directory is
  an association list of file name to parsed record, listed by `readdir`
  in write order.  Host-level serialization failures while persisting
  (e.g. `JSON.stringify` rejecting a cyclic result value) are
  infrastructure effects outside the model.
-/

namespace ScriptEnv

/-! ## JavaScript values

Result values returned by a script are scalars, functions, or references
into a heap of objects; the heap makes cyclic and shared structures
(which `sanitizeOutput` must handle) representable. -/

/-- A JavaScript scalar: `null`, a boolean, a number or a string
(the JSON-safe primitives). -/
inductive Scalar where
  | nullV
  | boolV (b : Bool)
  | numV (n : Int)
  | strV (s : String)
deriving DecidableEq, Repr

/-- A JavaScript value as `sanitizeOutput` distinguishes them by `typeof`:
a scalar, a function (carrying its `name` property; the empty string models
a function without a name), or a reference to an object in the heap. -/
inductive JsValue where
  | scalar (s : Scalar)
  | func (name : String)
  | obj (addr : Nat)
deriving DecidableEq, Repr

/-- An object heap: each address maps to the object's enumerable fields in
property order.  `List.lookup` returns the first binding, so addresses act
as identities. -/
def Heap : Type := List (Nat × List (String × JsValue))

/-! ## Word-boundary matching

`checkBlacklist` tests each catalog symbol with the regex
`new RegExp("\\b" + key + "\\b")`.  Every catalog symbol consists of ASCII
word characters only, so `\b` before the symbol means "at the string start
or after a non-word character", and `\b` after it means "at the string end
or before a non-word character". -/

/-- ASCII word character, the class the JavaScript regex escape `\b` is
defined from: `[A-Za-z0-9_]`. -/
def isWordChar (c : Char) : Bool := c.isAlphanum || c = '_'

/-- The character left of the match position permits `\b` (for a key that
starts with a word character): there is none, or it is not a word
character. -/
def prevOk : Option Char → Bool
  | none => true
  | some c => !isWordChar c

/-- The text right of the match permits `\b` (for a key that ends with a
word character): it is empty, or starts with a non-word character. -/
def nextOk : List Char → Bool
  | [] => true
  | c :: _ => !isWordChar c

/-- The key is literally the next characters of the text. -/
def beginsWith : List Char → List Char → Bool
  | [], _ => true
  | _ :: _, [] => false
  | k :: ks, c :: cs => k == c && beginsWith ks cs

/-- The character standing just before the current scan position:
`prev` when `pre` (the part already scanned) is empty, else the last
character of `pre`. -/
def lastChar (prev : Option Char) : List Char → Option Char
  | [] => prev
  | c :: rest => lastChar (some c) rest

/-- Scan of the text for a word-boundary match of `key`: at each position,
either the key matches here with both boundaries satisfied, or the scan
moves one character right. -/
def wbMatchAux (key : List Char) : Option Char → List Char → Bool
  | _, [] => false
  | prev, c :: rest =>
      (prevOk prev && beginsWith key (c :: rest) && nextOk ((c :: rest).drop key.length))
      || wbMatchAux key (some c) rest

/-- `new RegExp("\\b" + key + "\\b").test(s)` for a key of word
characters. -/
def containsWholeWord (key s : String) : Bool :=
  wbMatchAux key.data none s.data

/-- Declarative reading of the regex test: the key occurs somewhere in the
text, the character before the occurrence (if any) is not a word character,
and the character after it (if any) is not a word character. -/
def wholeWordOccurs (key s : String) : Prop :=
  ∃ pre suf, s.data = pre ++ key.data ++ suf ∧
    prevOk (lastChar none pre) = true ∧ nextOk suf = true

theorem beginsWith_iff (k : List Char) :
    ∀ s, beginsWith k s = true ↔ ∃ t, s = k ++ t := by
  induction k with
  | nil =>
      intro s
      simp [beginsWith]
  | cons kh kt ih =>
      intro s
      cases s with
      | nil =>
          simp [beginsWith]
      | cons c cs =>
          simp only [beginsWith, Bool.and_eq_true, beq_iff_eq, ih cs]
          constructor
          · rintro ⟨rfl, t, rfl⟩
            exact ⟨t, rfl⟩
          · rintro ⟨t, h⟩
            cases h
            exact ⟨rfl, t, rfl⟩

theorem wbMatchAux_iff (key : List Char) (hk : key ≠ []) :
    ∀ s prev, wbMatchAux key prev s = true ↔
      ∃ pre suf, s = pre ++ key ++ suf ∧
        prevOk (lastChar prev pre) = true ∧ nextOk suf = true := by
  intro s
  induction s with
  | nil =>
      intro prev
      simp only [wbMatchAux]
      constructor
      · intro h
        exact absurd h (by simp)
      · rintro ⟨pre, suf, h, -, -⟩
        exact absurd h.symm (by simp [hk])
  | cons c rest ih =>
      intro prev
      simp only [wbMatchAux, Bool.or_eq_true, Bool.and_eq_true, beginsWith_iff, ih]
      constructor
      · rintro (⟨⟨hprev, t, ht⟩, hnext⟩ | ⟨pre, suf, hs, hpre, hsuf⟩)
        · refine ⟨[], t, by simpa using ht, by simpa [lastChar] using hprev, ?_⟩
          have : (c :: rest).drop key.length = t := by
            rw [ht, List.drop_left]
          rwa [this] at hnext
        · exact ⟨c :: pre, suf, by simp [hs], by simpa [lastChar] using hpre, hsuf⟩
      · rintro ⟨pre, suf, hs, hpre, hsuf⟩
        cases pre with
        | nil =>
            left
            simp only [List.nil_append] at hs
            refine ⟨⟨by simpa [lastChar] using hpre, suf, hs⟩, ?_⟩
            have : (c :: rest).drop key.length = suf := by
              rw [hs, List.drop_left]
            rwa [this]
        | cons p ps =>
            right
            simp only [List.cons_append, List.cons.injEq] at hs
            exact ⟨ps, suf, hs.2, by simpa [lastChar, hs.1] using hpre, hsuf⟩

theorem containsWholeWord_iff (key s : String) (hk : key.data ≠ []) :
    containsWholeWord key s = true ↔ wholeWordOccurs key s :=
  wbMatchAux_iff key.data hk s.data none

/-! ## The blacklist catalog

Transcription of the `BLACKLIST` object literal; entries are listed in the
source's insertion order, the order `for (const key in BLACKLIST)`
iterates. -/

/-- Risk tier attached to a blacklist entry. -/
inductive Risk where
  | LOW
  | MEDIUM
  | HIGH
  | CRITICAL
deriving DecidableEq, Repr

/-- Rendering of the risk tier inside the rejection message. -/
def Risk.label : Risk → String
  | .LOW => "LOW"
  | .MEDIUM => "MEDIUM"
  | .HIGH => "HIGH"
  | .CRITICAL => "CRITICAL"

/-- One entry of the catalog: the banned symbol, its risk tier and the
documented reasons. -/
structure BlacklistEntry where
  symbol : String
  risk : Risk
  reasons : List String
deriving DecidableEq, Repr

/-- The fixed catalog from the source, in insertion order. -/
def BLACKLIST : List BlacklistEntry :=
  [ { symbol := "process", risk := .CRITICAL,
      reasons := ["Access to environment variables and secrets",
                  "System information exposure",
                  "Process termination capability",
                  "Direct stdio access"] }
  , { symbol := "require", risk := .CRITICAL,
      reasons := ["Arbitrary module loading", "File system access",
                  "Network capabilities", "Native module execution"] }
  , { symbol := "eval", risk := .CRITICAL,
      reasons := ["Dynamic code execution", "Sandbox escape potential",
                  "Context manipulation"] }
  , { symbol := "fs", risk := .HIGH,
      reasons := ["File reading/writing", "Directory manipulation",
                  "File deletion", "Sensitive data access"] }
  , { symbol := "path", risk := .MEDIUM,
      reasons := ["File path traversal", "System structure discovery"] }
  , { symbol := "http", risk := .HIGH,
      reasons := ["Unauthorized network requests", "Data exfiltration",
                  "Server creation"] }
  , { symbol := "https", risk := .HIGH,
      reasons := ["Unauthorized secure network requests",
                  "Certificate manipulation"] }
  , { symbol := "net", risk := .HIGH,
      reasons := ["Raw socket access", "Network scanning",
                  "Unauthorized connections"] }
  , { symbol := "child_process", risk := .CRITICAL,
      reasons := ["System command execution", "Shell access",
                  "Arbitrary program execution"] }
  , { symbol := "worker_threads", risk := .HIGH,
      reasons := ["Parallel processing abuse", "Resource exhaustion",
                  "Sandbox escape attempts"] }
  , { symbol := "os", risk := .MEDIUM,
      reasons := ["System information disclosure",
                  "Network interface enumeration",
                  "Resource usage monitoring"] }
  , { symbol := "crypto", risk := .MEDIUM,
      reasons := ["Resource exhaustion via heavy computation",
                  "Random number generation manipulation",
                  "Cryptographic attack vectors"] }
  , { symbol := "global", risk := .HIGH,
      reasons := ["Global scope pollution", "Prototype chain manipulation",
                  "Context leakage"] }
  , { symbol := "Buffer", risk := .HIGH,
      reasons := ["Memory manipulation", "Binary data attacks",
                  "Buffer overflow potential"] }
  , { symbol := "setInterval", risk := .MEDIUM,
      reasons := ["Resource exhaustion", "Infinite loops",
                  "Timer-based attacks"] }
  , { symbol := "setTimeout", risk := .MEDIUM,
      reasons := ["Delayed execution tricks", "Timer-based attacks",
                  "Resource leaks"] }
  , { symbol := "Function", risk := .HIGH,
      reasons := ["Dynamic code generation", "Scope chain manipulation",
                  "Sandbox escape attempts"] }
  , { symbol := "WebAssembly", risk := .HIGH,
      reasons := ["Native code execution", "Performance attacks",
                  "Memory manipulation"] }
  , { symbol := "Proxy", risk := .MEDIUM,
      reasons := ["Object behavior manipulation", "Access control bypass",
                  "Prototype pollution"] }
  , { symbol := "Reflect", risk := .MEDIUM,
      reasons := ["Object manipulation", "Property access bypass",
                  "Metaprogramming risks"] }
  ]

/-- A thrown JavaScript error as `executeScript` records it:
`{name, message, stack}`.  Stack text is host-generated; errors the
environment itself constructs are modelled with an empty stack. -/
structure JsError where
  name : String
  message : String
  stack : String
deriving DecidableEq, Repr

/-- The error `checkBlacklist` throws on a match:
`Usage of '<key>' is not allowed (<RISK> risk)`. -/
def blacklistViolation (e : BlacklistEntry) : JsError :=
  { name := "Error"
  , message := "Usage of '" ++ e.symbol ++ "' is not allowed (" ++ e.risk.label ++ " risk)"
  , stack := "" }

/-- `checkBlacklist(scriptContent)`: scans the catalog in insertion order
and throws on the first entry whose symbol word-boundary-matches the script
text; `some entry` models the throw, `none` the silent pass. -/
def checkBlacklist (scriptContent : String) : Option BlacklistEntry :=
  BLACKLIST.find? (fun e => containsWholeWord e.symbol scriptContent)

theorem blacklist_symbols_nonempty :
    ∀ e ∈ BLACKLIST, e.symbol.data ≠ [] := by decide

/-- Sanity: a blacklisted symbol occurring only inside a longer identifier
does not trip the filter. -/
theorem blacklist_substring_example :
    checkBlacklist "let processing = fsync + pathology;" = none := by decide

/-- Sanity: a whole-word occurrence trips the filter on that entry. -/
theorem blacklist_word_example :
    (checkBlacklist "const x = os.cpus();").map (fun e => e.symbol) = some "os" := by
  decide

/-! ## The script environment and the bounded executor

`new ScriptEnvironment(options)` fills each option with
`options.x || default`; JavaScript `||` also replaces a supplied `0`
(falsy) by the default. -/

/-- Constructor options (only the fields the executor consults; the three
directory paths are fixed strings with no behaviour in the model). -/
structure Options where
  timeout : Option Nat
  maxMemory : Option Nat
  maxCalls : Option Nat
deriving DecidableEq, Repr

/-- JavaScript `x || d` for an optionally-supplied numeric option:
missing and `0` both fall back to the default. -/
def jsOrNat : Option Nat → Nat → Nat
  | none, d => d
  | some v, d => if v = 0 then d else v

/-- The executor instance: configuration plus the instance-resident
mutable fields `callCount`, `logs`, `errors`. -/
structure ScriptEnvironment where
  timeout : Nat
  maxMemory : Nat
  maxCalls : Nat
  callCount : Nat
  logs : List String
  errors : List String
deriving DecidableEq, Repr

/-- The constructor: `timeout || 1000`, `maxMemory || 1024*1024*10`,
`maxCalls || 10000`, `callCount = 0`; `logs`/`errors` start absent and are
first assigned in `executeScript`, modelled as empty. -/
def newEnv (opts : Options) : ScriptEnvironment :=
  { timeout := jsOrNat opts.timeout 1000
  , maxMemory := jsOrNat opts.maxMemory (1024 * 1024 * 10)
  , maxCalls := jsOrNat opts.maxCalls 10000
  , callCount := 0
  , logs := []
  , errors := [] }

/-- One console call the script attempts, in program order:
`console.log(...)` or `console.error(...)` with the already-joined
argument text. -/
inductive ConsoleEvent where
  | log (msg : String)
  | err (msg : String)
deriving DecidableEq, Repr

/-- How the script body's synchronous run ends when no console call throws:
the final expression's value, a thrown error, or the vm timeout firing. -/
inductive BodyOutcome where
  | value (v : JsValue)
  | throwErr (e : JsError)
  | timeout
deriving DecidableEq, Repr

/-- A script, represented by its observable behaviour in the sandbox: its
source text (what `checkBlacklist` scans), the console calls it attempts in
order, and how the body ends if the call budget does not abort it. -/
structure ScriptBehavior where
  content : String
  events : List ConsoleEvent
  outcome : BodyOutcome
deriving DecidableEq, Repr

/-- The per-run mutable state the instrumented console closures touch. -/
structure RunAcc where
  callCount : Nat
  logs : List String
  errors : List String
deriving DecidableEq, Repr

/-- The instrumented console from `createContext`: each call runs
`if (this.callCount++ > this.maxCalls) throw new Error('Too many calls')`
and otherwise appends the message.  The returned flag is true when the
budget guard threw, aborting the remaining events; the post-increment
happens in either branch. -/
def runEvents (maxCalls : Nat) : List ConsoleEvent → RunAcc → RunAcc × Bool
  | [], acc => (acc, false)
  | .log m :: rest, acc =>
      if maxCalls < acc.callCount then
        ({ acc with callCount := acc.callCount + 1 }, true)
      else
        runEvents maxCalls rest
          { acc with callCount := acc.callCount + 1, logs := acc.logs ++ [m] }
  | .err m :: rest, acc =>
      if maxCalls < acc.callCount then
        ({ acc with callCount := acc.callCount + 1 }, true)
      else
        runEvents maxCalls rest
          { acc with callCount := acc.callCount + 1, errors := acc.errors ++ [m] }

/-- `new Error('Too many calls')` thrown by the budget guard. -/
def tooManyCallsError : JsError :=
  { name := "Error", message := "Too many calls", stack := "" }

/-- The error `vm` raises when the wall-clock timeout fires. -/
def timeoutError (t : Nat) : JsError :=
  { name := "Error"
  , message := "Script execution timed out after " ++ toString t ++ "ms."
  , stack := "" }

/-- `new Error('Memory limit exceeded')` thrown by `monitorMemoryUsage`. -/
def memoryLimitError : JsError :=
  { name := "Error", message := "Memory limit exceeded", stack := "" }

/-- `monitorMemoryUsage()`: reads the host heap figure and throws when it
exceeds the ceiling; `true` models the throw. -/
def monitorMemoryUsage (env : ScriptEnvironment) (heapUsed : Nat) : Bool :=
  env.maxMemory < heapUsed

/-- The persisted and returned outcome of one run:
`{scriptId, success, result?, error?, logs, errors, executionTime}`.  The
success literal carries `result` and no `error` key; the failure literal
carries `error` and no `result` key. -/
structure ExecutionRecord where
  scriptId : String
  success : Bool
  result : Option JsValue
  error : Option JsError
  logs : List String
  errors : List String
  executionTime : Nat
deriving DecidableEq, Repr

/-- What `executeScript` hands back to its caller: a returned record, or
an exception propagating out (a rejected promise). -/
inductive ExecResult where
  | ok (record : ExecutionRecord)
  | thrown (e : JsError)
deriving DecidableEq, Repr

/-- The results-file name `` `${scriptId}_${startTime}.json` ``. -/
def resultFileName (scriptId : String) (startTime : Nat) : String :=
  scriptId ++ "_" ++ toString startTime ++ ".json"

/-- Everything one `executeScript` call does that the claims observe: what
the caller receives, whether the raw script text was saved to
`scriptsDir`, and the results-file write (name and record), if any. -/
structure ExecOutcome where
  result : ExecResult
  scriptSaved : Bool
  persisted : Option (String × ExecutionRecord)
deriving DecidableEq, Repr

/-- The `catch (error)` handler: it first calls `monitorMemoryUsage()` —
whose own throw escapes `executeScript`, unrecorded — and otherwise builds,
persists and returns the `success:false` record. -/
def catchHandler (env : ScriptEnvironment) (scriptId : String) (startTime : Nat)
    (heapUsed elapsed : Nat) (acc : RunAcc) (e : JsError) : ExecOutcome :=
  if monitorMemoryUsage env heapUsed then
    { result := .thrown memoryLimitError, scriptSaved := true, persisted := none }
  else
    let record : ExecutionRecord :=
      { scriptId := scriptId, success := false, result := none, error := some e
      , logs := acc.logs, errors := acc.errors, executionTime := elapsed }
    { result := .ok record, scriptSaved := true
    , persisted := some (resultFileName scriptId startTime, record) }

/-- `executeScript(scriptContent, scriptId)`.  `startTime` is
`performance.now()` at entry, `heapUsed` the heap figure
`monitorMemoryUsage` would read in the catch handler, `elapsed` the
measured `executionTime`.  The instance fields reset to fresh values
before anything else; `checkBlacklist` runs before the `try` block, so its
throw escapes with nothing saved; inside the `try` the script text is
written, the body runs under the instrumented console, and either a
success record is built, persisted and returned, or the catch handler
runs. -/
def executeScript (env : ScriptEnvironment) (beh : ScriptBehavior) (scriptId : String)
    (startTime heapUsed elapsed : Nat) : ExecOutcome :=
  match checkBlacklist beh.content with
  | some entry =>
      { result := .thrown (blacklistViolation entry)
      , scriptSaved := false, persisted := none }
  | none =>
      match runEvents env.maxCalls beh.events ⟨0, [], []⟩ with
      | (acc, true) =>
          catchHandler env scriptId startTime heapUsed elapsed acc tooManyCallsError
      | (acc, false) =>
          match beh.outcome with
          | .value v =>
              let record : ExecutionRecord :=
                { scriptId := scriptId, success := true, result := some v, error := none
                , logs := acc.logs, errors := acc.errors, executionTime := elapsed }
              { result := .ok record, scriptSaved := true
              , persisted := some (resultFileName scriptId startTime, record) }
          | .throwErr e =>
              catchHandler env scriptId startTime heapUsed elapsed acc e
          | .timeout =>
              catchHandler env scriptId startTime heapUsed elapsed acc
                (timeoutError env.timeout)

/-! ## History query -/

/-- The results directory as `readdir` lists it, in write order: one
`.json` file name with the record parsed back from it per completed
`executeScript` call. -/
def ResultsDir : Type := List (String × ExecutionRecord)

/-- `file.startsWith(scriptId)`, character by character. -/
def strStartsWith (s p : String) : Bool := beginsWith p.data s.data

/-- `file.endsWith('.json')`, character by character from the right. -/
def strEndsWith (s p : String) : Bool := beginsWith p.data.reverse s.data.reverse

theorem strStartsWith_iff (s p : String) :
    strStartsWith s p = true ↔ ∃ t, s.data = p.data ++ t :=
  beginsWith_iff p.data s.data

theorem strEndsWith_iff (s p : String) :
    strEndsWith s p = true ↔ ∃ t, s.data = t ++ p.data := by
  rw [strEndsWith, beginsWith_iff]
  constructor
  · rintro ⟨t, ht⟩
    refine ⟨t.reverse, ?_⟩
    have := congrArg List.reverse ht
    simpa using this
  · rintro ⟨t, ht⟩
    exact ⟨t.reverse, by simp [ht]⟩

/-- `getScriptHistory(scriptId)`: keeps every directory entry whose file
name starts with the id and ends with `.json`, in directory order. -/
def getScriptHistory (files : List (String × ExecutionRecord)) (scriptId : String) :
    List ExecutionRecord :=
  (files.filter (fun f => strStartsWith f.1 scriptId && strEndsWith f.1 ".json")).map Prod.snd

/-! ## The result sanitizer

`sanitizeOutput` serializes through `JSON.stringify(output, replacer)` and
parses the text back.  The replacer keeps a `WeakSet` of every structured
value already visited: a revisited value becomes the string
`'[Circular]'`, a function becomes `` `[Function: ${name}]` ``, scalars
pass through.  The parsed result is a pure tree (`SanValue`).  The
`WeakSet` is threaded as the list of visited addresses; recursion carries
explicit fuel, and fuel `heap.length + 1` is proved sufficient below, which
is the termination argument of the JavaScript original. -/

/-- A JSON tree as `JSON.parse` returns it: a scalar or an object of
already-sanitized fields. -/
inductive SanValue where
  | scalar (s : Scalar)
  | obj (fields : List (String × SanValue))

/-- `` `[Function: ${value.name || 'anonymous'}]` ``: the empty name string
is falsy, so it renders as `anonymous`. -/
def functionDescriptor (name : String) : String :=
  "[Function: " ++ (if name = "" then "anonymous" else name) ++ "]"

/-- Serialization of an object's fields in property order, threading the
visited set left to right, parametrized by the serialization of one
value. -/
def sanFieldsWith (san : List Nat → JsValue → Option (SanValue × List Nat)) :
    List Nat → List (String × JsValue) → Option (List (String × SanValue) × List Nat)
  | seen, [] => some ([], seen)
  | seen, (k, v) :: rest =>
      match san seen v with
      | none => none
      | some (sv, seen1) =>
          match sanFieldsWith san seen1 rest with
          | none => none
          | some (svs, seen2) => some ((k, sv) :: svs, seen2)

/-- The replacer applied to one value, then (for a fresh object) the
serialization of its fields: scalars pass, functions become descriptor
strings, a revisited address becomes `'[Circular]'`, a fresh address is
added to the visited set and its fields are walked.  Fuel is spent only
when descending into a fresh object, and every such descent enlarges the
visited set, which is the JavaScript original's termination argument;
`none` is fuel exhaustion, which `sanitizeOutput_total` rules out. -/
def sanVal (heap : List (Nat × List (String × JsValue))) :
    Nat → List Nat → JsValue → Option (SanValue × List Nat)
  | 0, _, _ => none
  | _ + 1, seen, .scalar s => some (.scalar s, seen)
  | _ + 1, seen, .func name => some (.scalar (.strV (functionDescriptor name)), seen)
  | fuel + 1, seen, .obj a =>
      if a ∈ seen then
        some (.scalar (.strV "[Circular]"), seen)
      else
        match heap.lookup a with
        | none => some (.obj [], seen)
        | some fields =>
            match sanFieldsWith (fun sn w => sanVal heap fuel sn w) (a :: seen) fields with
            | none => none
            | some (fs, seen2) => some (.obj fs, seen2)

/-- What `sanitizeOutput` hands back: the input unchanged (the
`typeof output !== 'object' || output === null` early return), or the
parsed JSON tree. -/
inductive SanitizedOutput where
  | raw (v : JsValue)
  | tree (t : SanValue)

/-- `sanitizeOutput(output)`: a non-object (scalar or function) returns
unchanged; an object goes through the replacer-guarded
stringify/parse round trip.  `none` would mean the walk ran out of fuel;
`sanitizeOutput_total` shows it never does. -/
def sanitizeOutput (heap : List (Nat × List (String × JsValue))) (output : JsValue) :
    Option SanitizedOutput :=
  match output with
  | .obj a =>
      match sanVal heap (heap.length + 1) [] (.obj a) with
      | none => none
      | some (t, _) => some (.tree t)
  | v => some (.raw v)

/-! ### Termination of the sanitizer walk

Fuel is spent only on descent into an unvisited heap address, so the number
of heap addresses not yet visited bounds the fuel the walk can consume. -/

/-- Addresses bound in the heap, without duplicates. -/
def heapKeys (heap : List (Nat × List (String × JsValue))) : List Nat :=
  (heap.map Prod.fst).dedup

/-- Number of heap addresses not yet visited: the decreasing measure of
the walk. -/
def unseenCount (heap : List (Nat × List (String × JsValue))) (seen : List Nat) : Nat :=
  ((heapKeys heap).filter (fun a => decide (a ∉ seen))).length

theorem length_filter_mono {α : Type} (p q : α → Bool)
    (h : ∀ x, p x = true → q x = true) :
    ∀ l : List α, (l.filter p).length ≤ (l.filter q).length := by
  intro l
  induction l with
  | nil => simp
  | cons x xs ih =>
      by_cases hp : p x = true
      · simp [List.filter_cons, hp, h x hp]
        omega
      · simp only [List.filter_cons, Bool.not_eq_true] at hp ⊢
        rw [hp]
        cases hq : q x <;> simp <;> omega

theorem length_filter_notMem_strict (a : Nat) (seen : List Nat) (hs : a ∉ seen) :
    ∀ l : List Nat, a ∈ l →
      (l.filter (fun x => decide (x ∉ a :: seen))).length
        < (l.filter (fun x => decide (x ∉ seen))).length := by
  intro l
  induction l with
  | nil => intro h; cases h
  | cons x xs ih =>
      intro hmem
      by_cases hx : x = a
      · subst hx
        have h₁ : decide (x ∉ x :: seen) = false := by simp
        have h₂ : decide (x ∉ seen) = true := by simpa using hs
        rw [List.filter_cons, List.filter_cons, h₁, h₂]
        have hle :
            (xs.filter (fun y => decide (y ∉ x :: seen))).length
              ≤ (xs.filter (fun y => decide (y ∉ seen))).length := by
          refine length_filter_mono _ _ (fun y hy => ?_) xs
          simp only [decide_eq_true_eq] at hy ⊢
          intro hc
          exact hy (List.mem_cons_of_mem _ hc)
        simpa using Nat.lt_of_le_of_lt hle (Nat.lt_succ_self _)
      · have hmem' : a ∈ xs := by
          cases hmem with
          | head => exact absurd rfl hx
          | tail _ h => exact h
        have hsame : (decide (x ∉ a :: seen)) = (decide (x ∉ seen)) := by
          simp only [List.mem_cons, decide_not]
          have : (x = a) = False := by simp [hx]
          simp [this]
        rw [List.filter_cons, List.filter_cons, hsame]
        cases hk : decide (x ∉ seen) with
        | false =>
            rw [if_neg (by simp), if_neg (by simp)]
            exact ih hmem'
        | true =>
            rw [if_pos rfl, if_pos rfl]
            simpa using Nat.succ_lt_succ (ih hmem')

theorem lookup_mem_keys (a : Nat) (fs : List (String × JsValue)) :
    ∀ heap : List (Nat × List (String × JsValue)),
      heap.lookup a = some fs → a ∈ heapKeys heap := by
  intro heap
  induction heap with
  | nil => intro h; cases h
  | cons e t ih =>
      intro h
      rw [List.lookup] at h
      by_cases he : a = e.1
      · simp [heapKeys, he]
      · have : (a == e.1) = false := by simpa using he
        rw [this] at h
        have := ih h
        simp only [heapKeys, List.map_cons] at this ⊢
        rcases List.mem_dedup.mp this with hmem
        exact List.mem_dedup.mpr (List.mem_cons_of_mem _ hmem)

theorem unseenCount_strict (heap : List (Nat × List (String × JsValue)))
    (a : Nat) (fs : List (String × JsValue)) (seen : List Nat)
    (hl : heap.lookup a = some fs) (hs : a ∉ seen) :
    unseenCount heap (a :: seen) < unseenCount heap seen :=
  length_filter_notMem_strict a seen hs (heapKeys heap) (lookup_mem_keys a fs heap hl)

theorem unseenCount_mono (heap : List (Nat × List (String × JsValue)))
    (seen seen2 : List Nat) (h : ∀ x ∈ seen, x ∈ seen2) :
    unseenCount heap seen2 ≤ unseenCount heap seen := by
  refine length_filter_mono _ _ (fun x hx => ?_) (heapKeys heap)
  simp only [decide_eq_true_eq] at hx ⊢
  intro hc
  exact hx (h x hc)

theorem sanFieldsWith_subset (san : List Nat → JsValue → Option (SanValue × List Nat))
    (h : ∀ sn v sv sn2, san sn v = some (sv, sn2) → ∀ x ∈ sn, x ∈ sn2) :
    ∀ (fields : List (String × JsValue)) (sn : List Nat) svs sn2,
      sanFieldsWith san sn fields = some (svs, sn2) → ∀ x ∈ sn, x ∈ sn2 := by
  intro fields
  induction fields with
  | nil =>
      intro sn svs sn2 heq
      simp only [sanFieldsWith] at heq
      cases heq
      exact fun x hx => hx
  | cons f rest ih =>
      intro sn svs sn2 heq
      simp only [sanFieldsWith] at heq
      split at heq
      · cases heq
      · next sv sn1 hsan =>
          split at heq
          · cases heq
          · next svs2 sn3 hrec =>
              cases heq
              exact fun x hx => ih sn1 _ _ hrec x (h sn f.2 sv sn1 hsan x hx)

theorem sanVal_subset (heap : List (Nat × List (String × JsValue))) :
    ∀ (fuel : Nat) (seen : List Nat) v sv seen2,
      sanVal heap fuel seen v = some (sv, seen2) → ∀ x ∈ seen, x ∈ seen2 := by
  intro fuel
  induction fuel with
  | zero => intro seen v sv seen2 h; cases h
  | succ fuel ih =>
      intro seen v sv seen2 h
      match v with
      | .scalar s => cases h; exact fun x hx => hx
      | .func name => cases h; exact fun x hx => hx
      | .obj a =>
          simp only [sanVal] at h
          split at h
          · cases h
            exact fun x hx => hx
          · split at h
            · cases h
              exact fun x hx => hx
            · next fs hl =>
                split at h
                · cases h
                · next fs2 sn2 hf =>
                    cases h
                    intro x hx
                    exact sanFieldsWith_subset _ (fun sn v sv sn2 he => ih sn v sv sn2 he)
                      fs (a :: seen) _ _ hf x (List.mem_cons_of_mem _ hx)

theorem sanFieldsWith_isSome (P : List Nat → Prop)
    (san : List Nat → JsValue → Option (SanValue × List Nat))
    (h1 : ∀ sn v, P sn → (san sn v).isSome = true)
    (h2 : ∀ sn v sv sn2, san sn v = some (sv, sn2) → P sn → P sn2) :
    ∀ (fields : List (String × JsValue)) (sn : List Nat), P sn →
      (sanFieldsWith san sn fields).isSome = true := by
  intro fields
  induction fields with
  | nil => intro sn _; simp [sanFieldsWith]
  | cons f rest ih =>
      intro sn hP
      simp only [sanFieldsWith]
      rcases hsan : san sn f.2 with _ | ⟨sv, sn1⟩
      · have := h1 sn f.2 hP
        rw [hsan] at this
        cases this
      · have hP1 := h2 sn f.2 sv sn1 hsan hP
        have := ih sn1 hP1
        rcases hrec : sanFieldsWith san sn1 rest with _ | ⟨svs, sn2⟩
        · rw [hrec] at this
          cases this
        · simp [hrec]

theorem sanVal_total (heap : List (Nat × List (String × JsValue))) :
    ∀ (fuel : Nat) (seen : List Nat) (v : JsValue),
      unseenCount heap seen < fuel → (sanVal heap fuel seen v).isSome = true := by
  intro fuel
  induction fuel with
  | zero => intro seen v h; omega
  | succ fuel ih =>
      intro seen v h
      match v with
      | .scalar s => simp [sanVal]
      | .func name => simp [sanVal]
      | .obj a =>
          simp only [sanVal]
          by_cases ha : a ∈ seen
          · simp [ha]
          · rw [if_neg ha]
            rcases hl : heap.lookup a with _ | fs
            · simp [hl]
            · have hstart : unseenCount heap (a :: seen) < fuel := by
                have hstrict := unseenCount_strict heap a fs seen hl ha
                omega
              have hsome :=
                sanFieldsWith_isSome (fun sn => unseenCount heap sn < fuel)
                  (fun sn w => sanVal heap fuel sn w)
                  (fun sn v hP => ih sn v hP)
                  (fun sn v sv sn2 he hP =>
                    Nat.lt_of_le_of_lt
                      (unseenCount_mono heap sn sn2 (sanVal_subset heap fuel sn v sv sn2 he))
                      hP)
                  fs (a :: seen) hstart
              rcases hf : sanFieldsWith (fun sn w => sanVal heap fuel sn w) (a :: seen) fs
                with _ | ⟨fs2, sn2⟩
              · rw [hf] at hsome
                cases hsome
              · simp [hl, hf]

/-- The sanitizer never exhausts its fuel: on every input it produces a
result (it terminates; in the JavaScript original, `JSON.stringify` with
the visited-set replacer never loops and never throws on the modelled
value space). -/
theorem sanitizeOutput_total (heap : List (Nat × List (String × JsValue)))
    (output : JsValue) : (sanitizeOutput heap output).isSome = true := by
  match output with
  | .scalar s => simp [sanitizeOutput]
  | .func name => simp [sanitizeOutput]
  | .obj a =>
      simp only [sanitizeOutput]
      have hcount : unseenCount heap [] < heap.length + 1 := by
        have h1 : unseenCount heap [] ≤ (heapKeys heap).length :=
          List.length_filter_le _ _
        have h2 : (heapKeys heap).length ≤ (heap.map Prod.fst).length :=
          List.Sublist.length_le (List.dedup_sublist _)
        rw [List.length_map] at h2
        omega
      have := sanVal_total heap (heap.length + 1) [] (.obj a) hcount
      rcases hs : sanVal heap (heap.length + 1) [] (.obj a) with _ | ⟨t, sn⟩
      · rw [hs] at this
        cases this
      · simp [hs]

/-- Sanity: a directly self-referential object sanitizes to the circular
marker at the revisit point. -/
theorem sanitize_self_reference_example :
    sanitizeOutput [(0, [("self", .obj 0)])] (.obj 0)
      = some (.tree (.obj [("self", .scalar (.strV "[Circular]"))])) := rfl

/-- Sanity: a nested callable becomes its descriptor string and scalars
pass through. -/
theorem sanitize_function_field_example :
    sanitizeOutput [(0, [("f", .func "g"), ("n", .scalar (.numV 3))])] (.obj 0)
      = some (.tree (.obj [("f", .scalar (.strV "[Function: g]")),
                           ("n", .scalar (.numV 3))])) := rfl

/-! ## The frozen sandbox global

`createContext` builds `safeGlobals` with the instrumented `console`
closures and then runs `Object.freeze(context)`.  JavaScript's
`Object.freeze` is shallow: it makes the context object's own properties
(the `console` binding among them) non-writable, but does not recurse into
the `console` object, whose own `log`/`error` properties stay writable.
Assigning to a non-writable property of a frozen object in sloppy mode is
a silent no-op.  The model below tracks which function each console method
currently dispatches to; a `custom` implementation is a script-installed
function the instrumentation counter and log capture never see. -/

/-- What a console method currently dispatches to: the instrumented
closure from `createContext`, or a script-installed function. -/
inductive ConsoleImpl where
  | instrumented
  | custom (id : Nat)
deriving DecidableEq, Repr

/-- The sandbox global after `createContext`, as scripts can observe and
mutate it. -/
structure SandboxState where
  logImpl : ConsoleImpl
  errImpl : ConsoleImpl
  globalFrozen : Bool
  consoleFrozen : Bool
  callCount : Nat
  logs : List String
  errors : List String
deriving DecidableEq, Repr

/-- The state `createContext()` returns: instrumented console methods, the
context object frozen, the nested `console` object not frozen (shallow
freeze). -/
def createdSandbox : SandboxState :=
  { logImpl := .instrumented, errImpl := .instrumented
  , globalFrozen := true, consoleFrozen := false
  , callCount := 0, logs := [], errors := [] }

/-- Statements a sandboxed script can run against the console surface:
rebind the `console` global itself, overwrite `console.log`, or call
`console.log`. -/
inductive SandboxAction where
  | assignConsoleGlobal (id : Nat)
  | assignConsoleLog (id : Nat)
  | callConsoleLog (msg : String)
deriving DecidableEq, Repr

/-- One statement: assignment to a property of a frozen object is a silent
no-op; assignment to `console.log` lands because `console` is not frozen;
calling the instrumented implementation runs the budget guard and captures
the message, calling a custom implementation does neither.  The flag is
true when the budget guard threw. -/
def stepSandbox (maxCalls : Nat) (st : SandboxState) :
    SandboxAction → SandboxState × Bool
  | .assignConsoleGlobal id =>
      (if st.globalFrozen then st
       else { st with logImpl := .custom id, errImpl := .custom id }, false)
  | .assignConsoleLog id =>
      (if st.consoleFrozen then st else { st with logImpl := .custom id }, false)
  | .callConsoleLog msg =>
      match st.logImpl with
      | .instrumented =>
          if maxCalls < st.callCount then
            ({ st with callCount := st.callCount + 1 }, true)
          else
            ({ st with callCount := st.callCount + 1, logs := st.logs ++ [msg] }, false)
      | .custom _ => (st, false)

/-- A straight-line script over the console surface, stopping at the first
thrown budget error. -/
def runSandbox (maxCalls : Nat) (st : SandboxState) :
    List SandboxAction → SandboxState × Bool
  | [] => (st, false)
  | act :: rest =>
      match stepSandbox maxCalls st act with
      | (st2, true) => (st2, true)
      | (st2, false) => runSandbox maxCalls st2 rest

theorem runSandbox_custom_silent (maxCalls f : Nat) :
    ∀ (msgs : List String) (st : SandboxState), st.logImpl = .custom f →
      runSandbox maxCalls st (msgs.map SandboxAction.callConsoleLog) = (st, false) := by
  intro msgs
  induction msgs with
  | nil => intro st _; rfl
  | cons m rest ih =>
      intro st hst
      simp only [List.map_cons, runSandbox, stepSandbox, hst]
      exact ih st hst

theorem runSandbox_instrumented_trips (maxCalls : Nat) :
    ∀ (msgs : List String) (st : SandboxState), st.logImpl = .instrumented →
      st.callCount ≤ maxCalls + 1 → maxCalls + 2 ≤ st.callCount + msgs.length →
      (runSandbox maxCalls st (msgs.map SandboxAction.callConsoleLog)).2 = true := by
  intro msgs
  induction msgs with
  | nil =>
      intro st _ h1 h2
      simp only [List.length_nil] at h2
      omega
  | cons m rest ih =>
      intro st hst h1 h2
      simp only [List.map_cons, runSandbox, stepSandbox, hst]
      by_cases hc : maxCalls < st.callCount
      · rw [if_pos hc]
      · rw [if_neg hc]
        simp only [List.length_cons] at h2
        exact ih _ rfl (by simp; omega) (by simp; omega)

/-! ## Characterization of the call-budget guard -/

theorem runEvents_log_characterization (mc : Nat) :
    ∀ (msgs : List String) (c : Nat) (l e : List String), c ≤ mc + 1 →
      runEvents mc (msgs.map ConsoleEvent.log) ⟨c, l, e⟩ =
        if msgs.length + c ≤ mc + 1 then (⟨c + msgs.length, l ++ msgs, e⟩, false)
        else (⟨mc + 2, l ++ msgs.take (mc + 1 - c), e⟩, true) := by
  intro msgs
  induction msgs with
  | nil =>
      intro c l e hc
      rw [if_pos (by simpa using hc)]
      simp [runEvents]
  | cons m rest ih =>
      intro c l e hc
      simp only [List.map_cons, runEvents]
      by_cases hguard : mc < c
      · have hceq : c = mc + 1 := by omega
        rw [if_pos hguard, if_neg (by simp [hceq])]
        subst hceq
        simp [Nat.sub_self]
      · rw [if_neg hguard]
        rw [ih (c + 1) (l ++ [m]) e (by omega)]
        by_cases hfit : rest.length + (c + 1) ≤ mc + 1
        · rw [if_pos hfit, if_pos (by simp only [List.length_cons]; omega)]
          simp
          omega
        · rw [if_neg hfit, if_neg (by simp only [List.length_cons]; omega)]
          have htake : mc + 1 - c = (mc - c) + 1 := by omega
          have htake2 : mc + 1 - (c + 1) = mc - c := by omega
          simp [htake, htake2, List.take_cons]

/-! ## The claims -/

/-- The environment built by `new ScriptEnvironment({})`: all defaults. -/
def defaultEnv : ScriptEnvironment := newEnv ⟨none, none, none⟩

/-- The record-shape invariant: exactly one of `result` / `error` is
populated, consistently with `success`. -/
def recordConsistent (r : ExecutionRecord) : Prop :=
  (r.success = true → r.result.isSome = true ∧ r.error = none) ∧
  (r.success = false → r.error.isSome = true ∧ r.result = none)

/-- The `success:false` record the catch handler assembles. -/
def failRecord (scriptId : String) (e : JsError) (acc : RunAcc) (elapsed : Nat) :
    ExecutionRecord :=
  { scriptId := scriptId, success := false, result := none, error := some e
  , logs := acc.logs, errors := acc.errors, executionTime := elapsed }

/-- The `success:true` record of a completed run. -/
def successRecord (scriptId : String) (v : JsValue) (acc : RunAcc) (elapsed : Nat) :
    ExecutionRecord :=
  { scriptId := scriptId, success := true, result := some v, error := none
  , logs := acc.logs, errors := acc.errors, executionTime := elapsed }

theorem executeScript_policy (env : ScriptEnvironment) (beh : ScriptBehavior)
    (scriptId : String) (startTime heapUsed elapsed : Nat) (entry : BlacklistEntry)
    (hcb : checkBlacklist beh.content = some entry) :
    executeScript env beh scriptId startTime heapUsed elapsed =
      { result := .thrown (blacklistViolation entry)
      , scriptSaved := false, persisted := none } := by
  simp only [executeScript, hcb]

theorem executeScript_success (env : ScriptEnvironment) (beh : ScriptBehavior)
    (scriptId : String) (startTime heapUsed elapsed : Nat) (acc : RunAcc) (v : JsValue)
    (hcb : checkBlacklist beh.content = none)
    (hrun : runEvents env.maxCalls beh.events ⟨0, [], []⟩ = (acc, false))
    (hout : beh.outcome = .value v) :
    executeScript env beh scriptId startTime heapUsed elapsed =
      { result := .ok (successRecord scriptId v acc elapsed)
      , scriptSaved := true
      , persisted := some (resultFileName scriptId startTime,
          successRecord scriptId v acc elapsed) } := by
  simp only [executeScript, hcb, hrun, hout, successRecord]

theorem catchHandler_memory_ok (env : ScriptEnvironment) (scriptId : String)
    (startTime heapUsed elapsed : Nat) (acc : RunAcc) (e : JsError)
    (hmm : monitorMemoryUsage env heapUsed = false) :
    catchHandler env scriptId startTime heapUsed elapsed acc e =
      { result := .ok (failRecord scriptId e acc elapsed)
      , scriptSaved := true
      , persisted := some (resultFileName scriptId startTime,
          failRecord scriptId e acc elapsed) } := by
  simp only [catchHandler, hmm, Bool.false_eq_true, if_false, failRecord]

theorem executeScript_budget (env : ScriptEnvironment) (beh : ScriptBehavior)
    (scriptId : String) (startTime heapUsed elapsed : Nat) (acc : RunAcc)
    (hcb : checkBlacklist beh.content = none)
    (hrun : runEvents env.maxCalls beh.events ⟨0, [], []⟩ = (acc, true)) :
    executeScript env beh scriptId startTime heapUsed elapsed =
      catchHandler env scriptId startTime heapUsed elapsed acc tooManyCallsError := by
  simp only [executeScript, hcb, hrun]

theorem executeScript_throw (env : ScriptEnvironment) (beh : ScriptBehavior)
    (scriptId : String) (startTime heapUsed elapsed : Nat) (acc : RunAcc) (e : JsError)
    (hcb : checkBlacklist beh.content = none)
    (hrun : runEvents env.maxCalls beh.events ⟨0, [], []⟩ = (acc, false))
    (hout : beh.outcome = .throwErr e) :
    executeScript env beh scriptId startTime heapUsed elapsed =
      catchHandler env scriptId startTime heapUsed elapsed acc e := by
  simp only [executeScript, hcb, hrun, hout]

theorem executeScript_timeout (env : ScriptEnvironment) (beh : ScriptBehavior)
    (scriptId : String) (startTime heapUsed elapsed : Nat) (acc : RunAcc)
    (hcb : checkBlacklist beh.content = none)
    (hrun : runEvents env.maxCalls beh.events ⟨0, [], []⟩ = (acc, false))
    (hout : beh.outcome = .timeout) :
    executeScript env beh scriptId startTime heapUsed elapsed =
      catchHandler env scriptId startTime heapUsed elapsed acc (timeoutError env.timeout) := by
  simp only [executeScript, hcb, hrun, hout]

theorem catchHandler_memory_exceeded (env : ScriptEnvironment) (scriptId : String)
    (startTime heapUsed elapsed : Nat) (acc : RunAcc) (e : JsError)
    (hmm : monitorMemoryUsage env heapUsed = true) :
    catchHandler env scriptId startTime heapUsed elapsed acc e =
      { result := .thrown memoryLimitError, scriptSaved := true, persisted := none } := by
  simp only [catchHandler, hmm, if_true]

/-- C2: `checkBlacklist` rejects a script iff some catalog entry's symbol
occurs in the text as a whole-word token — the character before and after
the occurrence, when present, are non-word characters, so a symbol
occurring only as a proper substring of a longer identifier does not
trigger rejection — and the thrown failure names the matched symbol and
its risk level. -/
theorem claim2_blacklist_word_boundary (s : String) :
    ((checkBlacklist s).isSome = true ↔ ∃ e, e ∈ BLACKLIST ∧ wholeWordOccurs e.symbol s) ∧
    (∀ e, checkBlacklist s = some e → e ∈ BLACKLIST ∧ wholeWordOccurs e.symbol s ∧
      (blacklistViolation e).message
        = "Usage of '" ++ e.symbol ++ "' is not allowed (" ++ e.risk.label ++ " risk)") := by
  constructor
  · rw [checkBlacklist, List.find?_isSome]
    constructor
    · rintro ⟨e, he, hp⟩
      exact ⟨e, he, (containsWholeWord_iff e.symbol s (blacklist_symbols_nonempty e he)).mp hp⟩
    · rintro ⟨e, he, hw⟩
      exact ⟨e, he, (containsWholeWord_iff e.symbol s (blacklist_symbols_nonempty e he)).mpr hw⟩
  · intro e he
    have hmem := List.mem_of_find?_eq_some he
    have hp := List.find?_some he
    exact ⟨hmem, (containsWholeWord_iff _ _ (blacklist_symbols_nonempty e hmem)).mp hp, rfl⟩

/-- Witness for C2 at a concrete script: `"x = require('fs');"` is
rejected on the `require` entry, and that entry is in the catalog with a
whole-word occurrence in the text. -/
theorem claim2_witness :
    ∃ e, checkBlacklist "x = require('fs');" = some e ∧
      e ∈ BLACKLIST ∧ wholeWordOccurs e.symbol "x = require('fs');" ∧ e.risk = .CRITICAL := by
  have h : checkBlacklist "x = require('fs');"
      = some { symbol := "require", risk := .CRITICAL
             , reasons := ["Arbitrary module loading", "File system access",
                           "Network capabilities", "Native module execution"] } := by
    decide
  rcases (claim2_blacklist_word_boundary "x = require('fs');").2 _ h with ⟨hmem, hw, -⟩
  exact ⟨_, h, hmem, hw, rfl⟩

/-- C7 (amended): `getScriptHistory(scriptId)` returns, in directory
order, exactly the records whose stored file name begins with `scriptId`
(as a character prefix, not an exact id match) and ends with `.json`;
because records are stored under `` `${id}_${startTime}.json` ``, records
of any id that extends the queried id are also returned. -/
theorem claim7_history_prefix_filter (files : List (String × ExecutionRecord))
    (scriptId : String) :
    (∀ r, r ∈ getScriptHistory files scriptId ↔
      ∃ name, (name, r) ∈ files ∧ (∃ t, name.data = scriptId.data ++ t) ∧
        (∃ t, name.data = t ++ ".json".data)) ∧
    (getScriptHistory files scriptId).Sublist (files.map Prod.snd) := by
  constructor
  · intro r
    simp only [getScriptHistory, List.mem_map, List.mem_filter]
    constructor
    · rintro ⟨⟨name, record⟩, ⟨hmem, hcond⟩, rfl⟩
      rw [Bool.and_eq_true] at hcond
      exact ⟨name, hmem, (strStartsWith_iff _ _).mp hcond.1, (strEndsWith_iff _ _).mp hcond.2⟩
    · rintro ⟨name, hmem, h1, h2⟩
      refine ⟨(name, r), ⟨hmem, ?_⟩, rfl⟩
      rw [Bool.and_eq_true]
      exact ⟨(strStartsWith_iff _ _).mpr h1, (strEndsWith_iff _ _).mpr h2⟩
  · exact (List.filter_sublist _).map _

/-- The record `executeScript` persists for the run of script id `t10`
used in the C7 counterexample. -/
def recT10 : ExecutionRecord :=
  { scriptId := "t10", success := true, result := some (.scalar (.numV 4))
  , error := none, logs := [], errors := [], executionTime := 7 }

/-- Counterexample to C7 as stated: after one execution under id `t10`,
querying the different id `t1` — of which `t10` is a proper extension —
returns that record instead of the claimed empty sequence. -/
theorem claim7_counterexample :
    (executeScript defaultEnv ⟨"2+2", [], .value (.scalar (.numV 4))⟩ "t10" 5 0 7).persisted
        = some ("t10_5.json", recT10) ∧
    getScriptHistory [("t10_5.json", recT10)] "t1" = [recT10] ∧
    recT10.scriptId ≠ "t1" := by
  refine ⟨?_, ?_, by decide⟩
  · rfl
  · rfl

/-- C8: every record `executeScript` returns or persists has exactly one
of `result` / `error` populated, consistently with its `success` flag. -/
theorem claim8_record_consistency (env : ScriptEnvironment) (beh : ScriptBehavior)
    (scriptId : String) (startTime heapUsed elapsed : Nat) :
    (∀ r, (executeScript env beh scriptId startTime heapUsed elapsed).result = .ok r →
      recordConsistent r) ∧
    (∀ fn r, (executeScript env beh scriptId startTime heapUsed elapsed).persisted
        = some (fn, r) → recordConsistent r) := by
  unfold executeScript catchHandler
  constructor
  · intro r hr
    split at hr
    · simp only at hr
      cases hr
    · split at hr
      · split at hr
        · simp only at hr
          cases hr
        · simp only at hr
          cases hr
          exact ⟨fun h => by simp_all, fun h => by simp⟩
      · split at hr
        · simp only at hr
          cases hr
          exact ⟨fun h => by simp, fun h => by simp_all⟩
        · split at hr
          · simp only at hr
            cases hr
          · simp only at hr
            cases hr
            exact ⟨fun h => by simp_all, fun h => by simp⟩
        · split at hr
          · simp only at hr
            cases hr
          · simp only at hr
            cases hr
            exact ⟨fun h => by simp_all, fun h => by simp⟩
  · intro fn r hr
    split at hr
    · simp only at hr
      cases hr
    · split at hr
      · split at hr
        · simp only at hr
          cases hr
        · simp only at hr
          cases hr
          exact ⟨fun h => by simp_all, fun h => by simp⟩
      · split at hr
        · simp only at hr
          cases hr
          exact ⟨fun h => by simp, fun h => by simp_all⟩
        · split at hr
          · simp only at hr
            cases hr
          · simp only at hr
            cases hr
            exact ⟨fun h => by simp_all, fun h => by simp⟩
        · split at hr
          · simp only at hr
            cases hr
          · simp only at hr
            cases hr
            exact ⟨fun h => by simp_all, fun h => by simp⟩

/-- The modelled behaviour of `"let x=5; let y=10; x+y;"`: no blacklisted
symbol, no console calls, and the completion value `vm` hands back — the
final expression statement — is `15`. -/
def behSum : ScriptBehavior :=
  { content := "let x=5; let y=10; x+y;", events := []
  , outcome := .value (.scalar (.numV 15)) }

/-- The modelled behaviour of `"throw new Error('boom')"`: the body throws
`Error` with message `boom` (with some host-generated stack text). -/
def behBoom (st : String) : ScriptBehavior :=
  { content := "throw new Error('boom')", events := []
  , outcome := .throwErr { name := "Error", message := "boom", stack := st } }

/-- C9: the two concrete scenarios.  The sum script yields a
`success:true` record with result `15`; the throwing script — as long as
the post-error heap reading stays within the default ceiling — yields a
returned `success:false` record whose error message is `boom`. -/
theorem claim9_concrete_scenarios (ts hp el : Nat) (st : String)
    (hheap : hp ≤ defaultEnv.maxMemory) :
    (executeScript defaultEnv behSum "t1" ts hp el).result
        = .ok (successRecord "t1" (.scalar (.numV 15)) ⟨0, [], []⟩ el) ∧
    (executeScript defaultEnv (behBoom st) "t2" ts hp el).result
        = .ok (failRecord "t2" { name := "Error", message := "boom", stack := st }
            ⟨0, [], []⟩ el) := by
  have hmm : monitorMemoryUsage defaultEnv hp = false := by
    simp only [monitorMemoryUsage, decide_eq_false_iff_not, Nat.not_lt]
    exact hheap
  constructor
  · rw [executeScript_success defaultEnv behSum "t1" ts hp el ⟨0, [], []⟩
        (.scalar (.numV 15)) (by decide) rfl rfl]
  · rw [executeScript_throw defaultEnv (behBoom st) "t2" ts hp el ⟨0, [], []⟩
        { name := "Error", message := "boom", stack := st } (by rfl) rfl rfl,
      catchHandler_memory_ok defaultEnv "t2" ts hp el ⟨0, [], []⟩ _ hmm]

/-- Witness for C9 at wholly concrete inputs. -/
theorem claim9_witness :
    (executeScript defaultEnv behSum "t1" 0 0 0).result
        = .ok (successRecord "t1" (.scalar (.numV 15)) ⟨0, [], []⟩ 0) ∧
    (executeScript defaultEnv (behBoom "") "t2" 0 0 0).result
        = .ok (failRecord "t2" { name := "Error", message := "boom", stack := "" }
            ⟨0, [], []⟩ 0) :=
  claim9_concrete_scenarios 0 0 0 "" (Nat.zero_le _)

/-- C1 (amended): of the five failure kinds, only `CallBudgetExceeded`,
`RuntimeError` and `TimeoutError` are caught and turned into a returned
and persisted `success:false` record, and only when the post-error heap
reading is within `maxMemory`.  A `PolicyViolation` is thrown to the
caller before the `try` block — nothing is saved and no record exists —
and a `MemoryLimitExceeded` detected inside the catch handler is likewise
thrown with no record persisted. -/
theorem claim1_failure_reporting (env : ScriptEnvironment) (beh : ScriptBehavior)
    (scriptId : String) (ts hp el : Nat) :
    (∀ entry, checkBlacklist beh.content = some entry →
        executeScript env beh scriptId ts hp el =
          { result := .thrown (blacklistViolation entry)
          , scriptSaved := false, persisted := none }) ∧
    (∀ acc, checkBlacklist beh.content = none → monitorMemoryUsage env hp = false →
        ((runEvents env.maxCalls beh.events ⟨0, [], []⟩ = (acc, true) →
            executeScript env beh scriptId ts hp el =
              { result := .ok (failRecord scriptId tooManyCallsError acc el)
              , scriptSaved := true
              , persisted := some (resultFileName scriptId ts,
                  failRecord scriptId tooManyCallsError acc el) }) ∧
         (∀ e, runEvents env.maxCalls beh.events ⟨0, [], []⟩ = (acc, false) →
            beh.outcome = .throwErr e →
            executeScript env beh scriptId ts hp el =
              { result := .ok (failRecord scriptId e acc el)
              , scriptSaved := true
              , persisted := some (resultFileName scriptId ts, failRecord scriptId e acc el) }) ∧
         (runEvents env.maxCalls beh.events ⟨0, [], []⟩ = (acc, false) →
            beh.outcome = .timeout →
            executeScript env beh scriptId ts hp el =
              { result := .ok (failRecord scriptId (timeoutError env.timeout) acc el)
              , scriptSaved := true
              , persisted := some (resultFileName scriptId ts,
                  failRecord scriptId (timeoutError env.timeout) acc el) }))) ∧
    (∀ acc b, checkBlacklist beh.content = none → monitorMemoryUsage env hp = true →
        runEvents env.maxCalls beh.events ⟨0, [], []⟩ = (acc, b) →
        (b = true ∨ (∀ v, beh.outcome ≠ .value v)) →
        executeScript env beh scriptId ts hp el =
          { result := .thrown memoryLimitError, scriptSaved := true, persisted := none }) := by
  refine ⟨?_, ?_, ?_⟩
  · intro entry hcb
    exact executeScript_policy env beh scriptId ts hp el entry hcb
  · intro acc hcb hmm
    refine ⟨?_, ?_, ?_⟩
    · intro hrun
      rw [executeScript_budget env beh scriptId ts hp el acc hcb hrun,
        catchHandler_memory_ok env scriptId ts hp el acc _ hmm]
    · intro e hrun hout
      rw [executeScript_throw env beh scriptId ts hp el acc e hcb hrun hout,
        catchHandler_memory_ok env scriptId ts hp el acc e hmm]
    · intro hrun hout
      rw [executeScript_timeout env beh scriptId ts hp el acc hcb hrun hout,
        catchHandler_memory_ok env scriptId ts hp el acc _ hmm]
  · intro acc b hcb hmm hrun hcatch
    cases b with
    | true =>
        rw [executeScript_budget env beh scriptId ts hp el acc hcb hrun,
          catchHandler_memory_exceeded env scriptId ts hp el acc _ hmm]
    | false =>
        cases hout : beh.outcome with
        | value v =>
            rcases hcatch with hb | hnv
            · cases hb
            · exact absurd hout (hnv v)
        | throwErr e =>
            rw [executeScript_throw env beh scriptId ts hp el acc e hcb hrun hout,
              catchHandler_memory_exceeded env scriptId ts hp el acc e hmm]
        | timeout =>
            rw [executeScript_timeout env beh scriptId ts hp el acc hcb hrun hout,
              catchHandler_memory_exceeded env scriptId ts hp el acc _ hmm]

/-- Witness for C1: a concrete runtime throw (`boom`) is caught, recorded
and persisted rather than escaping. -/
theorem claim1_witness :
    executeScript defaultEnv (behBoom "") "w1" 3 0 2 =
      { result := .ok (failRecord "w1" { name := "Error", message := "boom", stack := "" }
          ⟨0, [], []⟩ 2)
      , scriptSaved := true
      , persisted := some ("w1_3.json",
          failRecord "w1" { name := "Error", message := "boom", stack := "" } ⟨0, [], []⟩ 2) } :=
  ((claim1_failure_reporting defaultEnv (behBoom "") "w1" 3 0 2).2.1
    ⟨0, [], []⟩ (by decide) (by decide)).2.1
    { name := "Error", message := "boom", stack := "" } rfl rfl

/-- Counterexample to C1 as stated: for the blacklisted script
`require('fs')`, `executeScript` raises the policy violation to the caller
instead of returning a record, and persists nothing. -/
theorem claim1_counterexample :
    executeScript defaultEnv ⟨"require('fs')", [], .value (.scalar .nullV)⟩ "t4" 0 0 0 =
      { result := .thrown
          ⟨"Error", "Usage of 'require' is not allowed (CRITICAL risk)", ""⟩
      , scriptSaved := false, persisted := none } := by
  decide

/-- C3 (amended): `monitorMemoryUsage` runs only inside the catch handler.
A run whose body completes without error is never memory-checked — its
`success:true` record is returned whatever the heap figure — while on the
error path a heap reading above `maxMemory` makes the handler throw
`MemoryLimitExceeded` to the caller, with no record persisted. -/
theorem claim3_memory_check_error_path_only (env : ScriptEnvironment)
    (beh : ScriptBehavior) (scriptId : String) (ts el : Nat) :
    (∀ hp hp2 acc v, checkBlacklist beh.content = none →
        runEvents env.maxCalls beh.events ⟨0, [], []⟩ = (acc, false) →
        beh.outcome = .value v →
        executeScript env beh scriptId ts hp el = executeScript env beh scriptId ts hp2 el ∧
        (executeScript env beh scriptId ts hp el).result
          = .ok (successRecord scriptId v acc el)) ∧
    (∀ hp acc e, checkBlacklist beh.content = none →
        runEvents env.maxCalls beh.events ⟨0, [], []⟩ = (acc, false) →
        beh.outcome = .throwErr e →
        monitorMemoryUsage env hp = true →
        executeScript env beh scriptId ts hp el =
          { result := .thrown memoryLimitError, scriptSaved := true, persisted := none }) := by
  constructor
  · intro hp hp2 acc v hcb hrun hout
    rw [executeScript_success env beh scriptId ts hp el acc v hcb hrun hout,
      executeScript_success env beh scriptId ts hp2 el acc v hcb hrun hout]
    exact ⟨rfl, rfl⟩
  · intro hp acc e hcb hrun hout hmm
    rw [executeScript_throw env beh scriptId ts hp el acc e hcb hrun hout,
      catchHandler_memory_exceeded env scriptId ts hp el acc e hmm]

/-- Witness for C3: a clean run is unaffected by an enormous heap figure,
and a throwing run under the same figure escalates to the thrown memory
error. -/
theorem claim3_witness :
    (executeScript defaultEnv behSum "m1" 0 (2 ^ 40) 1
        = executeScript defaultEnv behSum "m1" 0 0 1 ∧
      (executeScript defaultEnv behSum "m1" 0 (2 ^ 40) 1).result
        = .ok (successRecord "m1" (.scalar (.numV 15)) ⟨0, [], []⟩ 1)) ∧
    executeScript defaultEnv (behBoom "") "m2" 0 (2 ^ 40) 1 =
      { result := .thrown memoryLimitError, scriptSaved := true, persisted := none } :=
  ⟨(claim3_memory_check_error_path_only defaultEnv behSum "m1" 0 1).1
      (2 ^ 40) 0 ⟨0, [], []⟩ (.scalar (.numV 15)) (by decide) rfl rfl,
   (claim3_memory_check_error_path_only defaultEnv (behBoom "") "m2" 0 1).2
      (2 ^ 40) ⟨0, [], []⟩ { name := "Error", message := "boom", stack := "" }
      (by decide) rfl rfl (by decide)⟩

/-- Counterexample to C3 as stated: a script body that completes without
error while the heap reading vastly exceeds the default 10 MB ceiling
still produces a `success:true` record — no `MemoryLimitExceeded`
failure. -/
theorem claim3_counterexample :
    defaultEnv.maxMemory < 2 ^ 40 ∧
    (executeScript defaultEnv behSum "m1" 0 (2 ^ 40) 1).result
      = .ok (successRecord "m1" (.scalar (.numV 15)) ⟨0, [], []⟩ 1) := by
  constructor
  · decide
  · decide

/-- C4 (amended): for a script that completes within timeout and budget,
the record's `result` is the script's raw final value — `executeScript`
never invokes `sanitizeOutput` on it.  The two coincide exactly on
scalars, which the sanitizer passes through unchanged. -/
theorem claim4_result_is_raw (env : ScriptEnvironment) (beh : ScriptBehavior)
    (scriptId : String) (ts hp el : Nat) (acc : RunAcc) (v : JsValue)
    (heap : List (Nat × List (String × JsValue)))
    (hcb : checkBlacklist beh.content = none)
    (hrun : runEvents env.maxCalls beh.events ⟨0, [], []⟩ = (acc, false))
    (hout : beh.outcome = .value v) :
    (executeScript env beh scriptId ts hp el).result
        = .ok (successRecord scriptId v acc el) ∧
    (successRecord scriptId v acc el).result = some v ∧
    (∀ s, v = .scalar s → sanitizeOutput heap v = some (.raw v)) := by
  refine ⟨?_, rfl, ?_⟩
  · rw [executeScript_success env beh scriptId ts hp el acc v hcb hrun hout]
  · rintro s rfl
    rfl

/-- Witness for C4 at the concrete sum script: the stored result is the
raw value `15`. -/
theorem claim4_witness :
    (executeScript defaultEnv behSum "t1" 0 0 2).result
        = .ok (successRecord "t1" (.scalar (.numV 15)) ⟨0, [], []⟩ 2) ∧
    (successRecord "t1" (.scalar (.numV 15)) ⟨0, [], []⟩ 2).result
        = some (.scalar (.numV 15)) ∧
    (∀ s, JsValue.scalar (.numV 15) = .scalar s →
      sanitizeOutput [] (.scalar (.numV 15)) = some (.raw (.scalar (.numV 15)))) :=
  claim4_result_is_raw defaultEnv behSum "t1" 0 0 2 ⟨0, [], []⟩ (.scalar (.numV 15)) []
    (by decide) rfl rfl

/-- The heap of the C4 counterexample: address 0 is an object whose field
`f` holds a named function. -/
def heapWithFn : List (Nat × List (String × JsValue)) := [(0, [("f", .func "g")])]

/-- Counterexample to C4 as stated: a run whose final value is an object
containing a callable stores the raw object reference in the record, while
the sanitizer maps that value to a different, descriptor-string tree — so
the stored result does not equal the sanitized value. -/
theorem claim4_counterexample :
    (executeScript defaultEnv ⟨"makeValue();", [], .value (.obj 0)⟩ "c4" 0 0 1).result
        = .ok (successRecord "c4" (.obj 0) ⟨0, [], []⟩ 1) ∧
    (successRecord "c4" (.obj 0) ⟨0, [], []⟩ 1).result = some (.obj 0) ∧
    sanitizeOutput heapWithFn (.obj 0)
        = some (.tree (.obj [("f", .scalar (.strV "[Function: g]"))])) ∧
    SanitizedOutput.tree (.obj [("f", .scalar (.strV "[Function: g]"))])
        ≠ .raw (.obj 0) := by
  refine ⟨rfl, rfl, rfl, ?_⟩
  intro h
  cases h

/-- C5 (amended): the per-run mutable state really is reset — the outcome
of `executeScript` is independent of the instance's leftover `callCount`,
`logs` and `errors` — but the budget guard `callCount++ > maxCalls` is
off by one: a script making up to `maxCalls + 1` log calls completes with
all its logs, and only from `maxCalls + 2` calls on does the run fail with
the `Too many calls` record, retaining the first `maxCalls + 1` messages
as partial logs. -/
theorem claim5_reset_and_budget (env : ScriptEnvironment) (beh : ScriptBehavior)
    (scriptId : String) (ts hp el : Nat) :
    (∀ c l er,
        executeScript { env with callCount := c, logs := l, errors := er }
            beh scriptId ts hp el
          = executeScript env beh scriptId ts hp el) ∧
    (∀ msgs : List String, beh.events = msgs.map ConsoleEvent.log →
        (msgs.length ≤ env.maxCalls + 1 →
          runEvents env.maxCalls beh.events ⟨0, [], []⟩ = (⟨msgs.length, msgs, []⟩, false)) ∧
        (env.maxCalls + 2 ≤ msgs.length → checkBlacklist beh.content = none →
          monitorMemoryUsage env hp = false →
          (executeScript env beh scriptId ts hp el).result
            = .ok (failRecord scriptId tooManyCallsError
                ⟨env.maxCalls + 2, msgs.take (env.maxCalls + 1), []⟩ el) ∧
          (executeScript env beh scriptId ts hp el).persisted
            = some (resultFileName scriptId ts,
                failRecord scriptId tooManyCallsError
                  ⟨env.maxCalls + 2, msgs.take (env.maxCalls + 1), []⟩ el))) := by
  constructor
  · intro c l er
    rfl
  · intro msgs hevents
    have hchar := runEvents_log_characterization env.maxCalls msgs 0 [] []
      (Nat.zero_le _)
    constructor
    · intro hfit
      rw [hevents, hchar, if_pos (by omega)]
      simp
    · intro hover hcb hmm
      have hrun : runEvents env.maxCalls beh.events ⟨0, [], []⟩
          = (⟨env.maxCalls + 2, msgs.take (env.maxCalls + 1), []⟩, true) := by
        rw [hevents, hchar, if_neg (by omega)]
        simp
      rw [executeScript_budget env beh scriptId ts hp el _ hcb hrun,
        catchHandler_memory_ok env scriptId ts hp el _ _ hmm]
      exact ⟨rfl, rfl⟩

/-- The environment `new ScriptEnvironment({maxCalls: 1})`. -/
def envMC1 : ScriptEnvironment := newEnv ⟨none, none, some 1⟩

/-- Witness for C5: with `maxCalls = 1`, a four-call script trips the
guard on its third call (`maxCalls + 2`); the failure record retains the
first two messages, and leftover instance state does not affect the
outcome. -/
theorem claim5_witness :
    (executeScript { envMC1 with callCount := 99, logs := ["stale"], errors := ["stale"] }
        ⟨"console.log(1);", [ConsoleEvent.log "1", .log "2", .log "3", .log "4"],
          .value (.scalar .nullV)⟩ "b2" 0 0 1
      = executeScript envMC1
          ⟨"console.log(1);", [ConsoleEvent.log "1", .log "2", .log "3", .log "4"],
            .value (.scalar .nullV)⟩ "b2" 0 0 1) ∧
    (executeScript envMC1
        ⟨"console.log(1);", [ConsoleEvent.log "1", .log "2", .log "3", .log "4"],
          .value (.scalar .nullV)⟩ "b2" 0 0 1).result
      = .ok (failRecord "b2" tooManyCallsError ⟨3, ["1", "2"], []⟩ 1) := by
  have h := claim5_reset_and_budget envMC1
    ⟨"console.log(1);", [ConsoleEvent.log "1", .log "2", .log "3", .log "4"],
      .value (.scalar .nullV)⟩ "b2" 0 0 1
  exact ⟨h.1 99 ["stale"] ["stale"],
    ((h.2 ["1", "2", "3", "4"] rfl).2 (by decide) (by decide) (by decide)).1⟩

/-- Counterexample to C5 as stated: with `maxCalls = 1`, a script making
two log calls — more than `maxCalls` — still completes successfully with
both logs captured, because the post-increment guard only throws from
call `maxCalls + 2` on. -/
theorem claim5_counterexample :
    envMC1.maxCalls = 1 ∧
    (executeScript envMC1
        ⟨"console.log(1); console.log(2); 7;", [ConsoleEvent.log "1", .log "2"],
          .value (.scalar (.numV 7))⟩ "b1" 0 0 1).result
      = .ok (successRecord "b1" (.scalar (.numV 7)) ⟨2, ["1", "2"], []⟩ 1) := by
  exact ⟨rfl, rfl⟩

/-- C6 (amended): the sanitizer always terminates and yields a result on
every input — including self-referential heaps — replacing a revisited
structured value by the `'[Circular]'` marker; a callable reached inside
the walk becomes the `[Function: name-or-anonymous]` descriptor string,
and scalars pass through unchanged.  (A callable given as the top-level
argument is excluded: it takes the non-object early return, see the
counterexample.) -/
theorem claim6_sanitizer_guarantees (heap : List (Nat × List (String × JsValue)))
    (output : JsValue) :
    (sanitizeOutput heap output).isSome = true ∧
    (∀ fuel seen a, a ∈ seen →
        sanVal heap (fuel + 1) seen (.obj a)
          = some (.scalar (.strV "[Circular]"), seen)) ∧
    (∀ fuel seen name,
        sanVal heap (fuel + 1) seen (.func name)
          = some (.scalar (.strV (functionDescriptor name)), seen)) ∧
    (∀ s, sanitizeOutput heap (.scalar s) = some (.raw (.scalar s))) := by
  refine ⟨sanitizeOutput_total heap output, ?_, fun fuel seen name => rfl, fun s => rfl⟩
  intro fuel seen a ha
  simp [sanVal, ha]

/-- Witness for C6 on a concrete self-referential heap: the walk
terminates, the revisit of address 0 yields the circular marker, a named
callable yields its descriptor, and a scalar passes through. -/
theorem claim6_witness :
    (sanitizeOutput [(0, [("self", .obj 0)])] (.obj 0)).isSome = true ∧
    sanVal [(0, [("self", .obj 0)])] 1 [0] (.obj 0)
        = some (.scalar (.strV "[Circular]"), [0]) ∧
    sanVal [(0, [("self", .obj 0)])] 1 [] (.func "g")
        = some (.scalar (.strV "[Function: g]"), []) ∧
    sanitizeOutput [(0, [("self", .obj 0)])] (.scalar (.numV 3))
        = some (.raw (.scalar (.numV 3))) := by
  have h := claim6_sanitizer_guarantees [(0, [("self", .obj 0)])] (.obj 0)
  exact ⟨h.1, h.2.1 0 [0] 0 (by decide), h.2.2.1 0 [] "g", h.2.2.2 (.numV 3)⟩

/-- Counterexample to C6 as stated: a callable passed as the top-level
output is returned unchanged — still a function value, not the claimed
opaque descriptor string. -/
theorem claim6_counterexample :
    sanitizeOutput [] (.func "g") = some (.raw (.func "g")) ∧
    SanitizedOutput.raw (.func "g")
        ≠ .tree (.scalar (.strV (functionDescriptor "g"))) ∧
    SanitizedOutput.raw (.func "g") ≠ .raw (.scalar (.strV (functionDescriptor "g"))) := by
  refine ⟨rfl, ?_, ?_⟩
  · intro h
    cases h
  · intro h
    simp at h

/-- C10: `Object.freeze(context)` is shallow.  The frozen context blocks
rebinding the `console` global itself, but `console`'s own properties stay
writable, so a script can overwrite `console.log` with its own function:
after that, any number of log calls goes uncounted and uncaptured — the
`maxCalls` budget check is bypassed entirely — whereas under the original
instrumented method the guard does trip. -/
theorem claim10_shallow_freeze (maxCalls f : Nat) :
    createdSandbox.globalFrozen = true ∧
    createdSandbox.consoleFrozen = false ∧
    (∀ id, stepSandbox maxCalls createdSandbox (.assignConsoleGlobal id)
        = (createdSandbox, false)) ∧
    (stepSandbox maxCalls createdSandbox (.assignConsoleLog f)).1.logImpl = .custom f ∧
    (∀ msgs : List String,
        runSandbox maxCalls (stepSandbox maxCalls createdSandbox (.assignConsoleLog f)).1
            (msgs.map SandboxAction.callConsoleLog)
          = ((stepSandbox maxCalls createdSandbox (.assignConsoleLog f)).1, false)) ∧
    (stepSandbox maxCalls createdSandbox (.assignConsoleLog f)).1.callCount = 0 ∧
    (stepSandbox maxCalls createdSandbox (.assignConsoleLog f)).1.logs = [] ∧
    (∀ msgs : List String, maxCalls + 2 ≤ msgs.length →
        (runSandbox maxCalls createdSandbox (msgs.map SandboxAction.callConsoleLog)).2
          = true) := by
  refine ⟨rfl, rfl, fun id => rfl, rfl, ?_, rfl, rfl, ?_⟩
  · intro msgs
    exact runSandbox_custom_silent maxCalls f msgs _ rfl
  · intro msgs hlen
    exact runSandbox_instrumented_trips maxCalls msgs createdSandbox rfl
      (Nat.zero_le _) (by simp only [createdSandbox]; omega)

/-- Witness for C10 with `maxCalls = 1` and four log calls: after the
hijack the run is silent and unthrown; with the instrumented method the
same four calls trip the budget guard. -/
theorem claim10_witness :
    runSandbox 1 (stepSandbox 1 createdSandbox (.assignConsoleLog 0)).1
        (["a", "b", "c", "d"].map SandboxAction.callConsoleLog)
      = ((stepSandbox 1 createdSandbox (.assignConsoleLog 0)).1, false) ∧
    (runSandbox 1 createdSandbox
        (["a", "b", "c", "d"].map SandboxAction.callConsoleLog)).2 = true := by
  have h := claim10_shallow_freeze 1 0
  exact ⟨h.2.2.2.2.1 ["a", "b", "c", "d"],
    h.2.2.2.2.2.2.2 ["a", "b", "c", "d"] (by decide)⟩

end ScriptEnv
